import Mathlib

/-!
Arbor `stladdon.h`: allocators over the private heap, pointer functors, lock guards.

A shallow embedding of `src/cpp/source/arborgvt/service/stladdon.h`:
`private_heap::getHeap`, `default_allocator<T>`, `aligned_allocator<T, Alignment>`,
`smart_ptr_hash`, `smart_ptr_equal_to`, `lock_guard_exclusive`, `lock_guard_shared`.

* `size_t` values are natural numbers; every machine operation of the source is
  written with an explicit reduction modulo `2 ^ bits`.
* The Windows heap (`HeapCreate`/`HeapAlloc`/`HeapFree`) is an external
  collaborator.  It is represented by an answer function (`Os`) and every call
  made to it is appended to a log kept in the `World`.
* Memory is a map from byte addresses to byte values; a `size_t` object is
  stored least-significant byte first (all Windows targets are little-endian).
* C++ exceptions are the `error` results of `Except`.
-/

namespace stladd

/-! ## Target data model -/

/-- Data model of the compilation target: width of `size_t` in bits, and the
byte sizes `sizeof(pointer)` and `sizeof(size_t)`. -/
structure Abi where
  bits : Nat
  sizeofPointer : Nat
  sizeofSizeT : Nat
deriving DecidableEq, Repr

namespace Abi

/-- Number of distinct `size_t` values, `2 ^ bits`. -/
def modulus (abi : Abi) : Nat := 2 ^ abi.bits

/-- The value of `static_cast<size_type> (~0)`: all bits set. -/
def SIZE_MAX (abi : Abi) : Nat := abi.modulus - 1

/-- Unsigned `a + b` on `size_t`. -/
def add (abi : Abi) (a b : Nat) : Nat := (a + b) % abi.modulus

/-- Unsigned `a - b` on `size_t`. -/
def sub (abi : Abi) (a b : Nat) : Nat :=
  (a % abi.modulus + (abi.modulus - b % abi.modulus)) % abi.modulus

/-- Unsigned `a * b` on `size_t`. -/
def mul (abi : Abi) (a b : Nat) : Nat := (a * b) % abi.modulus

/-- Bitwise complement `~a` on `size_t`. -/
def not (abi : Abi) (a : Nat) : Nat := abi.modulus - 1 - a % abi.modulus

/-- Flat Windows data model: a pointer is as wide as `size_t`, and `size_t`
occupies `sizeof(size_t)` bytes of eight bits. -/
def Conforming (abi : Abi) : Prop :=
  abi.sizeofSizeT = abi.sizeofPointer ∧ 8 * abi.sizeofSizeT = abi.bits ∧ 0 < abi.sizeofSizeT

instance (abi : Abi) : Decidable abi.Conforming := by
  unfold Conforming; infer_instance

end Abi

/-- The 32-bit Windows target. -/
def win32 : Abi := { bits := 32, sizeofPointer := 4, sizeofSizeT := 4 }

/-- The 64-bit Windows target. -/
def win64 : Abi := { bits := 64, sizeofPointer := 8, sizeofSizeT := 8 }

/-- What the allocators use of the element type `T`: `sizeof(T)` and
`std::alignment_of<T>::value`. -/
structure TypeInfo where
  sizeof : Nat
  alignof : Nat
deriving DecidableEq, Repr

/-- The `max(a, b)` macro of `<Windows.h>`: `(((a) > (b)) ? (a) : (b))`. -/
def max (a b : Nat) : Nat := if a > b then a else b

/-! ## The platform heap and the world -/

/-- One call into the platform heap, with its arguments and its result. -/
inductive Call where
  | heapCreate (result : Nat)
  | heapAlloc (hHeap dwFlags dwBytes result : Nat)
  | heapFree (hHeap dwFlags lpMem : Nat)
deriving DecidableEq, Repr

/-- Answers of the platform: the handle a heap creation yields and the address
`HeapAlloc` yields (`0` is the null pointer), each as a function of the calls
made so far and of the arguments. -/
structure Os where
  create : List Call → Nat
  alloc : List Call → Nat → Nat → Nat → Nat

/-- Program state: whether the function-local `static initializer guard` of
`getHeap` has been constructed, the handle held by `private_heap::m_heap`, the
byte memory, and the log of platform calls (oldest first). -/
structure World where
  guard : Bool
  m_heap : Nat
  mem : Nat → Nat
  calls : List Call

/-- `HeapAlloc(hHeap, dwFlags, dwBytes)`: the platform answers with an address,
a `size_t`-wide word; the call is logged.  The block content is left as is
(the source passes no zeroing flag). -/
def HeapAlloc (abi : Abi) (os : Os) (hHeap dwFlags dwBytes : Nat) (w : World) : Nat × World :=
  let p := os.alloc w.calls hHeap dwFlags dwBytes % abi.modulus
  (p, { w with calls := w.calls ++ [Call.heapAlloc hHeap dwFlags dwBytes p] })

/-- `HeapFree(hHeap, dwFlags, lpMem)`: the call is logged. -/
def HeapFree (hHeap dwFlags lpMem : Nat) (w : World) : World :=
  { w with calls := w.calls ++ [Call.heapFree hHeap dwFlags lpMem] }

/-- Write of a `size_t` value `v` at byte address `a`: the `sizeof(size_t)`
bytes `[a, a + sizeof(size_t))` receive the little-endian digits of `v`. -/
def storeSizeT (abi : Abi) (mem : Nat → Nat) (a v : Nat) : Nat → Nat :=
  fun x => if a ≤ x ∧ x < a + abi.sizeofSizeT then v / 256 ^ (x - a) % 256 else mem x

/-- Little-endian value of the `n` bytes starting at address `a`. -/
def loadBytes (mem : Nat → Nat) : Nat → Nat → Nat
  | _, 0 => 0
  | a, n + 1 => mem a + 256 * loadBytes mem (a + 1) n

/-- Read of a `size_t` value at byte address `a`. -/
def loadSizeT (abi : Abi) (mem : Nat → Nat) (a : Nat) : Nat :=
  loadBytes mem a abi.sizeofSizeT

/-! ## `private_heap` -/

namespace private_heap

/-- Modelled from the spec: `private_heap::createHeap` is declared in the header
and defined elsewhere; per the specification, creation delegates to the
platform heap-create primitive and yields the resulting handle. -/
def createHeap (os : Os) (w : World) : Nat × World :=
  let h := os.create w.calls
  (h, { w with calls := w.calls ++ [Call.heapCreate h] })

/-- `private_heap::getHeap`: the first call constructs the function-local static
`initializer`, whose constructor runs `m_heap.reset(createHeap())`; every call
returns `m_heap.get()`. -/
def getHeap (os : Os) (w : World) : Nat × World :=
  if w.guard then (w.m_heap, w)
  else
    let r := createHeap os w
    let w1 : World := { r.2 with m_heap := r.1, guard := true }
    (w1.m_heap, w1)

end private_heap

/-- The two exceptions thrown by `allocate`. -/
inductive AllocError where
  | length_error
  | bad_alloc
deriving DecidableEq, Repr

/-! ## `default_allocator<T>` -/

namespace default_allocator

/-- `default_allocator::max_size`. -/
def max_size (abi : Abi) (T : TypeInfo) : Nat := abi.SIZE_MAX / T.sizeof

/-- `default_allocator::allocate(count)`. -/
def allocate (abi : Abi) (os : Os) (T : TypeInfo) (count : Nat) (w : World) :
    Except AllocError Nat × World :=
  if count ≠ 0 then
    if max_size abi T < count then
      (.error .length_error, w)
    else
      let g := private_heap.getHeap os w
      let r := HeapAlloc abi os g.1 0 (abi.mul count T.sizeof) g.2
      if r.1 = 0 then
        (.error .bad_alloc, r.2)
      else
        (.ok r.1, r.2)
  else
    (.ok 0, w)

/-- `default_allocator::deallocate(p, count)`. -/
def deallocate (os : Os) (p : Nat) (_count : Nat) (w : World) : World :=
  let g := private_heap.getHeap os w
  HeapFree g.1 0 p g.2

end default_allocator

/-! ## `aligned_allocator<T, Alignment>` -/

namespace aligned_allocator

/-- `aligned_allocator::maxAlignment`. -/
def maxAlignment (T : TypeInfo) (Alignment : Nat) : Nat := max T.alignof Alignment

/-- The condition of the class-level `static_assert`:
`0 == ((maxAlignment() - 1) & maxAlignment())`. -/
def static_assert_ok (abi : Abi) (T : TypeInfo) (Alignment : Nat) : Bool :=
  0 == ((abi.sub (maxAlignment T Alignment) 1) &&& maxAlignment T Alignment)

/-- A class `aligned_allocator<T, Alignment>`: the element type, identified by
`typeId` (distinct types have distinct identifiers) and described by its layout
`T`, and the alignment argument. -/
structure Specialization where
  typeId : Nat
  T : TypeInfo
  Alignment : Nat
deriving DecidableEq, Repr

/-- Whether two template-ids name the same class: the same element type and the
same alignment argument. -/
def Specialization.sameClass (left right : Specialization) : Bool :=
  left.typeId == right.typeId && left.Alignment == right.Alignment

/-- Why a member function template cannot be instantiated. -/
inductive CompileError where
  | private_member_inaccessible
deriving DecidableEq, Repr

/-- `aligned_allocator<T, Alignment>::operator ==` applied to a
`const aligned_allocator<U, UAlignment>& right`.  The body is
`maxAlignment() == right.maxAlignment()`, and `maxAlignment` is declared in the
`private:` section with no friend: `right.maxAlignment()` is accessible only
when the class of `right` is the class of `*this`; for any other
specialisation the instantiation is ill-formed and there is no result. -/
def operator_eq (left right : Specialization) : Except CompileError Bool :=
  if left.sameClass right then
    .ok (maxAlignment left.T left.Alignment == maxAlignment right.T right.Alignment)
  else
    .error .private_member_inaccessible

/-- `aligned_allocator<T, Alignment>::operator !=`: `!(*this == right)`, which
instantiates `operator ==` for the same pair of classes. -/
def operator_ne (left right : Specialization) : Except CompileError Bool :=
  match operator_eq left right with
  | .ok b => .ok (!b)
  | .error e => .error e

/-- `aligned_allocator::max_size`. -/
def max_size (abi : Abi) (T : TypeInfo) (Alignment : Nat) : Nat :=
  abi.sub abi.SIZE_MAX (abi.add (abi.sub (maxAlignment T Alignment) 1) abi.sizeofPointer)
    / T.sizeof

/-- Number of bytes `allocate` asks of the heap:
`count * sizeof(value_type) + maxAlignment() - 1 + sizeof(pointer)`. -/
def requestBytes (abi : Abi) (T : TypeInfo) (Alignment count : Nat) : Nat :=
  abi.add (abi.sub (abi.add (abi.mul count T.sizeof) (maxAlignment T Alignment)) 1)
    abi.sizeofPointer

/-- The address computed from the raw address `p`:
`(p + maxAlignment() - 1 + sizeof(pointer)) & ~(maxAlignment() - 1)`. -/
def alignedAddress (abi : Abi) (T : TypeInfo) (Alignment p : Nat) : Nat :=
  (abi.add (abi.sub (abi.add p (maxAlignment T Alignment)) 1) abi.sizeofPointer)
    &&& abi.not (abi.sub (maxAlignment T Alignment) 1)

/-- Address of the stash slot of the returned pointer `aligned`: `aligned - 1`
in `size_t*` arithmetic. -/
def slotAddress (abi : Abi) (aligned : Nat) : Nat := abi.sub aligned abi.sizeofSizeT

/-- `aligned_allocator::allocate(count)`. -/
def allocate (abi : Abi) (os : Os) (T : TypeInfo) (Alignment : Nat) (count : Nat) (w : World) :
    Except AllocError Nat × World :=
  if count ≠ 0 then
    if max_size abi T Alignment < count then
      (.error .length_error, w)
    else
      let g := private_heap.getHeap os w
      let r := HeapAlloc abi os g.1 0 (requestBytes abi T Alignment count) g.2
      if r.1 = 0 then
        (.error .bad_alloc, r.2)
      else
        let aligned := alignedAddress abi T Alignment r.1
        (.ok aligned, { r.2 with mem := storeSizeT abi r.2.mem (slotAddress abi aligned) r.1 })
  else
    (.ok 0, w)

/-- The raw address that `HeapAlloc` answers inside `allocate(count)` run from `w`. -/
def rawAddress (abi : Abi) (os : Os) (T : TypeInfo) (Alignment count : Nat) (w : World) : Nat :=
  (HeapAlloc abi os (private_heap.getHeap os w).1 0 (requestBytes abi T Alignment count)
    (private_heap.getHeap os w).2).1

/-- `aligned_allocator::deallocate(p, count)`: the word preceding `p` is read
and passed to `HeapFree`. -/
def deallocate (abi : Abi) (os : Os) (p : Nat) (_count : Nat) (w : World) : World :=
  let g := private_heap.getHeap os w
  HeapFree g.1 0 (loadSizeT abi g.2.mem (slotAddress abi p)) g.2

end aligned_allocator

/-! ## A concrete instrumented heap, for evaluation -/

/-- A fake platform: heap creation yields handle `7`; an allocation yields the
address `4099 + 4096 * (number of calls made so far)`. -/
def fakeOs : Os :=
  { create := fun _ => 7
    alloc := fun log _ _ _ => 4099 + 4096 * log.length }

/-- A fake platform whose `HeapAlloc` always fails. -/
def failingOs : Os :=
  { create := fun _ => 7
    alloc := fun _ _ _ _ => 0 }

/-- The state of a fresh process: no heap yet, zeroed memory, no call made. -/
def World.fresh : World :=
  { guard := false, m_heap := 0, mem := fun _ => 0, calls := [] }

/-- The element type `int`. -/
def T_int : TypeInfo := { sizeof := 4, alignof := 4 }

/-- The element type `char`. -/
def T_char : TypeInfo := { sizeof := 1, alignof := 1 }


/-- The element type `double`. -/
def T_double : TypeInfo := { sizeof := 8, alignof := 8 }

/-- The class `aligned_allocator<int, 16>`. -/
def alloc_int_16 : aligned_allocator.Specialization :=
  { typeId := 1, T := T_int, Alignment := 16 }

/-- The class `aligned_allocator<int, 32>`. -/
def alloc_int_32 : aligned_allocator.Specialization :=
  { typeId := 1, T := T_int, Alignment := 32 }

/-- The class `aligned_allocator<double, 16>`. -/
def alloc_double_16 : aligned_allocator.Specialization :=
  { typeId := 2, T := T_double, Alignment := 16 }

/-! ## `default_allocator<T>`: rebinding and equality -/

namespace default_allocator

/-- `default_allocator<T>::rebind<U>::other`: the allocator for the element type `U`. -/
def rebind (_T U : TypeInfo) : TypeInfo := U

/-- `default_allocator<T>::operator ==`, against a `default_allocator<U>`. -/
def operator_eq (_T _U : TypeInfo) : Bool := true

/-- `default_allocator<T>::operator !=`, against a `default_allocator<U>`. -/
def operator_ne (T U : TypeInfo) : Bool := !(operator_eq T U)

end default_allocator

/-! ## `private_heap::getHeap`, called repeatedly -/

namespace private_heap

/-- The handles returned by `n` successive calls of `getHeap`, in order, and the
world after the last of them. -/
def getHeapTimes (os : Os) : Nat → World → List Nat × World
  | 0, w => ([], w)
  | n + 1, w =>
    let g := getHeap os w
    let r := getHeapTimes os n g.2
    (g.1 :: r.1, r.2)

end private_heap

/-! ## Pointer hash and equality functors -/

/-- An owning smart pointer: null, or a non-null address together with the
object found there. -/
inductive SmartPtr (α : Type) where
  | null
  | owning (addr : Nat) (nonnull : addr ≠ 0) (pointee : α)

namespace SmartPtr

/-- The stored address `p.get()`; the null pointer is `0`. -/
def get {α : Type} : SmartPtr α → Nat
  | null => 0
  | owning addr _ _ => addr

/-- The conversion `explicit operator bool`: whether the pointer is non-null. -/
def toBool {α : Type} : SmartPtr α → Bool
  | null => false
  | owning _ _ _ => true

end SmartPtr

/-- `smart_ptr_hash::operator ()`, with `hasher` the `std::hash` of the pointee
type. -/
def smart_ptr_hash {α : Type} (hasher : α → Nat) (value : SmartPtr α) : Nat :=
  match value with
  | .owning _ _ x => hasher x
  | .null => 0

/-- `smart_ptr_equal_to::operator ()`, with `equal` the `operator ==` of the
pointee type; two smart pointers themselves compare by stored address. -/
def smart_ptr_equal_to {α : Type} (equal : α → α → Bool) (left right : SmartPtr α) : Bool :=
  match left, right with
  | .owning _ _ x, .owning _ _ y => equal x y
  | _, _ => left.get == right.get

/-! ## Scoped lock guards -/

/-- The operations of the mutex-like object wrapped by the guards. -/
inductive MutexCall where
  | lockExclusive
  | unlockExclusive
  | tryLockExclusive
  | lockShared
  | unlockShared
  | tryLockShared
deriving DecidableEq, Repr

/-- A call-recording mutex: the log of the calls made on it (oldest first) and
the answers of its two non-blocking acquisitions, each as a function of the
calls made before. -/
structure Mutex where
  calls : List MutexCall
  tryExclusive : List MutexCall → Bool
  tryShared : List MutexCall → Bool

namespace Mutex

/-- The call `mutex.lockExclusive()`. -/
def lockExclusive (m : Mutex) : Mutex :=
  { m with calls := m.calls ++ [MutexCall.lockExclusive] }

/-- The call `mutex.unlockExclusive()`. -/
def unlockExclusive (m : Mutex) : Mutex :=
  { m with calls := m.calls ++ [MutexCall.unlockExclusive] }

/-- The call `mutex.tryLockExclusive()`, with its answer. -/
def tryLockExclusive (m : Mutex) : Bool × Mutex :=
  (m.tryExclusive m.calls, { m with calls := m.calls ++ [MutexCall.tryLockExclusive] })

/-- The call `mutex.lockShared()`. -/
def lockShared (m : Mutex) : Mutex :=
  { m with calls := m.calls ++ [MutexCall.lockShared] }

/-- The call `mutex.unlockShared()`. -/
def unlockShared (m : Mutex) : Mutex :=
  { m with calls := m.calls ++ [MutexCall.unlockShared] }

/-- The call `mutex.tryLockShared()`, with its answer. -/
def tryLockShared (m : Mutex) : Bool × Mutex :=
  (m.tryShared m.calls, { m with calls := m.calls ++ [MutexCall.tryLockShared] })

end Mutex

/-- The three ways of constructing a guard: from the mutex alone, with
`std::adopt_lock_t`, with `std::try_to_lock_t`. -/
inductive LockMode where
  | blocking
  | adopt_lock
  | try_to_lock
deriving DecidableEq, Repr

/-- The state of a `lock_guard_exclusive`; the referenced mutex is passed along
explicitly. -/
structure lock_guard_exclusive where
  m_bOwns : Bool
deriving DecidableEq, Repr

namespace lock_guard_exclusive

/-- `lock_guard_exclusive(mutex)`. -/
def ctor (mutex : Mutex) : lock_guard_exclusive × Mutex :=
  let g : lock_guard_exclusive := { m_bOwns := false }
  let m1 := mutex.lockExclusive
  ({ g with m_bOwns := true }, m1)

/-- `lock_guard_exclusive(mutex, std::adopt_lock_t)`. -/
def ctor_adopt (mutex : Mutex) : lock_guard_exclusive × Mutex :=
  ({ m_bOwns := true }, mutex)

/-- `lock_guard_exclusive(mutex, std::try_to_lock_t)`. -/
def ctor_try (mutex : Mutex) : lock_guard_exclusive × Mutex :=
  let r := mutex.tryLockExclusive
  ({ m_bOwns := r.1 }, r.2)

/-- `~lock_guard_exclusive()`. -/
def dtor (g : lock_guard_exclusive) (mutex : Mutex) : Mutex :=
  if g.m_bOwns then mutex.unlockExclusive else mutex

/-- `lock_guard_exclusive::operator bool`. -/
def operator_bool (g : lock_guard_exclusive) : Bool := g.m_bOwns

/-- Construction in the given mode. -/
def construct (mode : LockMode) (mutex : Mutex) : lock_guard_exclusive × Mutex :=
  match mode with
  | .blocking => ctor mutex
  | .adopt_lock => ctor_adopt mutex
  | .try_to_lock => ctor_try mutex

/-- The whole life of a guard: construction, then scope exit; yields the
truthiness of the guard after construction and the mutex after destruction. -/
def lifetime (mode : LockMode) (mutex : Mutex) : Bool × Mutex :=
  let r := construct mode mutex
  (operator_bool r.1, dtor r.1 r.2)

end lock_guard_exclusive

/-- The state of a `lock_guard_shared`; the referenced mutex is passed along
explicitly. -/
structure lock_guard_shared where
  m_bOwns : Bool
deriving DecidableEq, Repr

namespace lock_guard_shared

/-- `lock_guard_shared(mutex)`. -/
def ctor (mutex : Mutex) : lock_guard_shared × Mutex :=
  let g : lock_guard_shared := { m_bOwns := false }
  let m1 := mutex.lockShared
  ({ g with m_bOwns := true }, m1)

/-- `lock_guard_shared(mutex, std::adopt_lock_t)`. -/
def ctor_adopt (mutex : Mutex) : lock_guard_shared × Mutex :=
  ({ m_bOwns := true }, mutex)

/-- `lock_guard_shared(mutex, std::try_to_lock_t)`. -/
def ctor_try (mutex : Mutex) : lock_guard_shared × Mutex :=
  let r := mutex.tryLockShared
  ({ m_bOwns := r.1 }, r.2)

/-- `~lock_guard_shared()`. -/
def dtor (g : lock_guard_shared) (mutex : Mutex) : Mutex :=
  if g.m_bOwns then mutex.unlockShared else mutex

/-- `lock_guard_shared::operator bool`. -/
def operator_bool (g : lock_guard_shared) : Bool := g.m_bOwns

/-- Construction in the given mode. -/
def construct (mode : LockMode) (mutex : Mutex) : lock_guard_shared × Mutex :=
  match mode with
  | .blocking => ctor mutex
  | .adopt_lock => ctor_adopt mutex
  | .try_to_lock => ctor_try mutex

/-- The whole life of a guard: construction, then scope exit; yields the
truthiness of the guard after construction and the mutex after destruction. -/
def lifetime (mode : LockMode) (mutex : Mutex) : Bool × Mutex :=
  let r := construct mode mutex
  (operator_bool r.1, dtor r.1 r.2)

end lock_guard_shared

/-- The renaming of the exclusive operations into the shared ones. -/
def toShared : MutexCall → MutexCall
  | .lockExclusive => .lockShared
  | .unlockExclusive => .unlockShared
  | .tryLockExclusive => .tryLockShared
  | c => c

/-- Whether a call is one of the three exclusive operations. -/
def MutexCall.isExclusive : MutexCall → Bool
  | .lockExclusive => true
  | .unlockExclusive => true
  | .tryLockExclusive => true
  | _ => false

/-- A fresh recording mutex whose two non-blocking acquisitions answer `ans`. -/
def fakeMutex (ans : Bool) : Mutex :=
  { calls := [], tryExclusive := fun _ => ans, tryShared := fun _ => ans }

/-! ## Arithmetic on machine words -/

theorem modulus_pos (abi : Abi) : 0 < abi.modulus := Nat.two_pow_pos _

theorem add_of_lt (abi : Abi) {a b : Nat} (h : a + b < abi.modulus) : abi.add a b = a + b :=
  Nat.mod_eq_of_lt h

theorem mul_of_lt (abi : Abi) {a b : Nat} (h : a * b < abi.modulus) : abi.mul a b = a * b :=
  Nat.mod_eq_of_lt h

theorem sub_of_le (abi : Abi) {a b : Nat} (hba : b ≤ a) (ha : a < abi.modulus) :
    abi.sub a b = a - b := by
  unfold Abi.sub
  rw [Nat.mod_eq_of_lt ha, Nat.mod_eq_of_lt (lt_of_le_of_lt hba ha)]
  have e : a + (abi.modulus - b) = (a - b) + abi.modulus := by omega
  rw [e, Nat.add_mod_right]
  exact Nat.mod_eq_of_lt (by omega)

theorem add_lt_modulus (abi : Abi) (a b : Nat) : abi.add a b < abi.modulus :=
  Nat.mod_lt _ (modulus_pos abi)

/-- Masking a word with the complement of `2 ^ k - 1` clears its `k` low bits. -/
theorem and_not_low_bits (b k x : Nat) (hx : x < 2 ^ b) (hk : k ≤ b) :
    x &&& (2 ^ b - 1 - (2 ^ k - 1)) = 2 ^ k * (x / 2 ^ k) := by
  have hk1 : 2 ^ k - 1 < 2 ^ b := by
    have := Nat.pow_le_pow_right (show 0 < 2 by decide) hk
    have := Nat.two_pow_pos k
    omega
  have e : 2 ^ b - 1 - (2 ^ k - 1) = 2 ^ b - ((2 ^ k - 1) + 1) := by omega
  rw [e]
  apply Nat.eq_of_testBit_eq
  intro i
  rw [Nat.testBit_and, Nat.testBit_two_pow_sub_succ hk1, Nat.testBit_two_pow_sub_one,
    Nat.testBit_mul_pow_two, ← Nat.shiftRight_eq_div_pow, Nat.testBit_shiftRight]
  by_cases hik : k ≤ i
  · have e2 : k + (i - k) = i := by omega
    rw [e2]
    by_cases hib : i < b
    · simp [hik, hib]
    · have : x.testBit i = false :=
        Nat.testBit_lt_two_pow (lt_of_lt_of_le hx (Nat.pow_le_pow_right (by decide) (by omega)))
      simp [this]
  · have : i < k := by omega
    simp [this, hik]

/-- For a positive `m`, `(m - 1) & m` vanishes exactly for the powers of two. -/
theorem and_pred_eq_zero_iff (m : Nat) (hm : 1 ≤ m) : (m - 1) &&& m = 0 ↔ ∃ k, m = 2 ^ k := by
  constructor
  · intro h
    refine ⟨Nat.log 2 m, ?_⟩
    have h1 : 2 ^ Nat.log 2 m ≤ m := Nat.pow_log_le_self 2 (by omega)
    have h2 : m < 2 ^ (Nat.log 2 m + 1) := Nat.lt_pow_succ_log_self (by decide) m
    by_contra hne
    have hbit : ∀ y, 2 ^ Nat.log 2 m ≤ y → y < 2 ^ (Nat.log 2 m + 1) →
        y.testBit (Nat.log 2 m) = true := by
      intro y hy1 hy2
      rw [Nat.testBit_to_div_mod]
      have : y / 2 ^ Nat.log 2 m = 1 := by
        apply Nat.div_eq_of_lt_le
        · simpa using hy1
        · rw [pow_succ] at hy2; omega
      simp [this]
    have hb1 := hbit m h1 h2
    have hb2 := hbit (m - 1) (by omega) (by omega)
    have := congrArg (fun z => z.testBit (Nat.log 2 m)) h
    simp [hb1, hb2] at this
  · rintro ⟨k, rfl⟩
    rw [Nat.land_comm, Nat.and_pow_two_sub_one_eq_mod, Nat.mod_self]

/-- A power of two below the modulus has an exponent below `bits`. -/
theorem exponent_lt_bits (abi : Abi) {k : Nat} (h : 2 ^ k < abi.modulus) : k < abi.bits :=
  (Nat.pow_lt_pow_iff_right (by decide)).1 h

/-- On a conforming target the overhead `M - 1 + sizeof(pointer)` of a power of
two alignment `M` is itself a `size_t` value. -/
theorem overhead_lt_modulus (abi : Abi) (hc : abi.Conforming) {k : Nat}
    (h : 2 ^ k < abi.modulus) : 2 ^ k - 1 + abi.sizeofPointer < abi.modulus := by
  obtain ⟨h1, h2, h3⟩ := hc
  have hk := exponent_lt_bits abi h
  unfold Abi.modulus at *
  have hb : abi.bits = (abi.bits - 1) + 1 := by omega
  have hle : 2 ^ k ≤ 2 ^ (abi.bits - 1) := Nat.pow_le_pow_right (by decide) (by omega)
  have hs : abi.bits - 1 < 2 ^ (abi.bits - 1) := Nat.lt_two_pow _
  have hp : 2 ^ abi.bits = 2 * 2 ^ (abi.bits - 1) := by
    conv_lhs => rw [hb, pow_succ]
    ring
  have := Nat.two_pow_pos k
  omega

/-- On a conforming target `size_t` has `256 ^ sizeof(size_t)` values. -/
theorem modulus_eq_bytes (abi : Abi) (hc : abi.Conforming) :
    abi.modulus = 256 ^ abi.sizeofSizeT := by
  obtain ⟨_, h2, _⟩ := hc
  unfold Abi.modulus
  rw [← h2, pow_mul]
  norm_num

/-! ## Memory -/

theorem loadBytes_digits (mem : Nat → Nat) :
    ∀ (n a v : Nat), (∀ i, i < n → mem (a + i) = v / 256 ^ i % 256) →
      loadBytes mem a n = v % 256 ^ n := by
  intro n
  induction n with
  | zero => intro a v _; simp [loadBytes, Nat.mod_one]
  | succ n ih =>
    intro a v h
    have h0 : mem a = v % 256 := by simpa using h 0 (Nat.succ_pos n)
    have hrec : loadBytes mem (a + 1) n = (v / 256) % 256 ^ n := by
      apply ih
      intro i hi
      have := h (i + 1) (by omega)
      rw [show a + 1 + i = a + (i + 1) by omega, this, pow_succ, Nat.mul_comm,
        Nat.div_div_eq_div_mul]
    rw [loadBytes, h0, hrec, pow_succ', Nat.mod_mul]

/-- A `size_t` read returns what was written, as long as the bytes of the slot
have not changed. -/
theorem load_of_stored (abi : Abi) (mem mem2 : Nat → Nat) (a v : Nat)
    (h : ∀ x, a ≤ x → x < a + abi.sizeofSizeT → mem2 x = storeSizeT abi mem a v x) :
    loadSizeT abi mem2 a = v % 256 ^ abi.sizeofSizeT := by
  apply loadBytes_digits
  intro i hi
  rw [h (a + i) (by omega) (by omega)]
  simp [storeSizeT, hi]

/-- A `size_t` write changes no byte outside `[a, a + sizeof(size_t))`. -/
theorem store_outside (abi : Abi) (mem : Nat → Nat) (a v x : Nat)
    (h : ¬ (a ≤ x ∧ x < a + abi.sizeofSizeT)) : storeSizeT abi mem a v x = mem x := by
  simp only [storeSizeT, if_neg h]

/-! ## The heap provider -/

theorem getHeap_mem (os : Os) (w : World) : (private_heap.getHeap os w).2.mem = w.mem := by
  unfold private_heap.getHeap private_heap.createHeap
  split <;> rfl

theorem getHeap_guard (os : Os) (w : World) : (private_heap.getHeap os w).2.guard = true := by
  unfold private_heap.getHeap private_heap.createHeap
  split
  · assumption
  · rfl

theorem getHeap_of_guard (os : Os) (w : World) (h : w.guard = true) :
    private_heap.getHeap os w = (w.m_heap, w) := by
  unfold private_heap.getHeap
  rw [if_pos h]

/-! ## Steps of `aligned_allocator::allocate` -/

namespace aligned_allocator

theorem rawAddress_lt (abi : Abi) (os : Os) (T : TypeInfo) (Alignment count : Nat) (w : World) :
    rawAddress abi os T Alignment count w < abi.modulus :=
  Nat.mod_lt _ (modulus_pos abi)

theorem allocate_result (abi : Abi) (os : Os) (T : TypeInfo) (Alignment count : Nat) (w : World)
    (hc : count ≠ 0) (hacc : ¬ max_size abi T Alignment < count) :
    (allocate abi os T Alignment count w).1 =
      if rawAddress abi os T Alignment count w = 0 then .error .bad_alloc
      else .ok (alignedAddress abi T Alignment (rawAddress abi os T Alignment count w)) := by
  unfold allocate rawAddress
  rw [if_pos hc, if_neg hacc]
  dsimp only
  split <;> rfl

theorem allocate_calls (abi : Abi) (os : Os) (T : TypeInfo) (Alignment count : Nat) (w : World)
    (hc : count ≠ 0) (hacc : ¬ max_size abi T Alignment < count) :
    (allocate abi os T Alignment count w).2.calls =
      (private_heap.getHeap os w).2.calls ++
        [Call.heapAlloc (private_heap.getHeap os w).1 0 (requestBytes abi T Alignment count)
          (rawAddress abi os T Alignment count w)] := by
  unfold allocate rawAddress
  rw [if_pos hc, if_neg hacc]
  dsimp only
  split <;> rfl

theorem allocate_mem (abi : Abi) (os : Os) (T : TypeInfo) (Alignment count : Nat) (w : World)
    (hc : count ≠ 0) (hacc : ¬ max_size abi T Alignment < count) :
    (allocate abi os T Alignment count w).2.mem =
      if rawAddress abi os T Alignment count w = 0 then w.mem
      else storeSizeT abi w.mem
        (slotAddress abi (alignedAddress abi T Alignment (rawAddress abi os T Alignment count w)))
        (rawAddress abi os T Alignment count w) := by
  unfold allocate rawAddress
  rw [if_pos hc, if_neg hacc]
  dsimp only
  split
  · exact getHeap_mem os w
  · simp only [HeapAlloc, getHeap_mem]

theorem allocate_rejected (abi : Abi) (os : Os) (T : TypeInfo) (Alignment count : Nat) (w : World)
    (hc : count ≠ 0) (hrej : max_size abi T Alignment < count) :
    allocate abi os T Alignment count w = (.error .length_error, w) := by
  unfold allocate
  rw [if_pos hc, if_pos hrej]

/-- The pointer advanced past the raw address, before masking:
`p + maxAlignment() - 1 + sizeof(pointer)` in `size_t` arithmetic. -/
theorem advance_eq (abi : Abi) (p m s : Nat) (hm : 1 ≤ m) :
    abi.add (abi.sub (abi.add p m) 1) s = (p + (m - 1) + s) % abi.modulus := by
  unfold Abi.add Abi.sub
  have hW := modulus_pos abi
  rcases Nat.lt_or_ge 1 abi.modulus with h1 | h1
  · rw [Nat.mod_eq_of_lt h1, Nat.mod_mod, Nat.mod_add_mod, Nat.add_assoc, Nat.mod_add_mod]
    have e : p + m + (abi.modulus - 1 + s) = (p + (m - 1) + s) + abi.modulus := by omega
    rw [e, Nat.add_mod_right]
  · have : abi.modulus = 1 := by omega
    simp [this, Nat.mod_one]

/-- With a power-of-two alignment, masking rounds the advanced pointer down to
a multiple of the alignment. -/
theorem alignedAddress_eq (abi : Abi) (T : TypeInfo) (Alignment p k : Nat)
    (hk : maxAlignment T Alignment = 2 ^ k) (hlt : maxAlignment T Alignment < abi.modulus) :
    alignedAddress abi T Alignment p =
      2 ^ k * (((p + (2 ^ k - 1) + abi.sizeofPointer) % abi.modulus) / 2 ^ k) := by
  unfold alignedAddress
  rw [hk] at hlt ⊢
  have hpos := Nat.two_pow_pos k
  rw [advance_eq abi p (2 ^ k) _ hpos, sub_of_le abi hpos hlt]
  unfold Abi.not
  rw [Nat.mod_eq_of_lt (by omega : 2 ^ k - 1 < abi.modulus)]
  exact and_not_low_bits abi.bits k _ (Nat.mod_lt _ (modulus_pos abi))
    (le_of_lt (exponent_lt_bits abi hlt))

/-- On a conforming target, with a power-of-two alignment, `max_size` is the
exact quotient `(SIZE_MAX - (M - 1 + sizeof(pointer))) / sizeof(T)`. -/
theorem max_size_eq (abi : Abi) (hconf : abi.Conforming) (T : TypeInfo) (Alignment k : Nat)
    (hk : maxAlignment T Alignment = 2 ^ k) (hlt : maxAlignment T Alignment < abi.modulus) :
    max_size abi T Alignment =
      (abi.SIZE_MAX - (maxAlignment T Alignment - 1 + abi.sizeofPointer)) / T.sizeof := by
  unfold max_size
  rw [hk] at hlt ⊢
  have hpos := Nat.two_pow_pos k
  have hov := overhead_lt_modulus abi hconf hlt
  rw [sub_of_le abi hpos hlt, add_of_lt abi hov]
  have hsm : abi.SIZE_MAX < abi.modulus := by
    unfold Abi.SIZE_MAX; have := modulus_pos abi; omega
  rw [sub_of_le abi (by unfold Abi.SIZE_MAX; omega) hsm]

/-- The size check accepts `count` exactly when the exact byte count
`count * sizeof(T) + M - 1 + sizeof(pointer)` is at most `SIZE_MAX`. -/
theorem accepted_iff (abi : Abi) (hconf : abi.Conforming) (T : TypeInfo) (Alignment k count : Nat)
    (hk : maxAlignment T Alignment = 2 ^ k) (hlt : maxAlignment T Alignment < abi.modulus)
    (he : 1 ≤ T.sizeof) :
    max_size abi T Alignment < count ↔
      abi.SIZE_MAX < count * T.sizeof + maxAlignment T Alignment - 1 + abi.sizeofPointer := by
  rw [max_size_eq abi hconf T Alignment k hk hlt, Nat.div_lt_iff_lt_mul he]
  have hov := overhead_lt_modulus abi hconf (hk ▸ hlt)
  rw [hk]
  have hpos := Nat.two_pow_pos k
  unfold Abi.SIZE_MAX
  omega

/-- For an accepted `count` the requested size is computed without wraparound. -/
theorem requestBytes_eq (abi : Abi) (hconf : abi.Conforming) (T : TypeInfo)
    (Alignment k count : Nat)
    (hk : maxAlignment T Alignment = 2 ^ k) (hlt : maxAlignment T Alignment < abi.modulus)
    (he : 1 ≤ T.sizeof) (hacc : ¬ max_size abi T Alignment < count) :
    requestBytes abi T Alignment count =
      count * T.sizeof + maxAlignment T Alignment - 1 + abi.sizeofPointer := by
  rw [accepted_iff abi hconf T Alignment k count hk hlt he] at hacc
  unfold requestBytes
  rw [hk] at hacc ⊢
  have hpos := Nat.two_pow_pos k
  have hW := modulus_pos abi
  have hsm : abi.SIZE_MAX = abi.modulus - 1 := rfl
  rw [advance_eq abi _ (2 ^ k) _ hpos, mul_of_lt abi (by omega)]
  rw [Nat.mod_eq_of_lt (by omega)]
  omega

end aligned_allocator

/-! ## Claims on `aligned_allocator` -/

namespace aligned_allocator

theorem maxAlignment_lt (abi : Abi) (T : TypeInfo) (Alignment : Nat)
    (hT : T.alignof < abi.modulus) (hA : Alignment < abi.modulus) :
    maxAlignment T Alignment < abi.modulus := by
  unfold maxAlignment max
  split <;> assumption

/-- The instrumented heap recorded the raw address: when the last logged call
of an accepted `allocate` is a `HeapAlloc`, its fields are those of the request. -/
theorem log_last (abi : Abi) (os : Os) (T : TypeInfo) (Alignment count : Nat) (w : World)
    (hc : count ≠ 0) (hacc : ¬ max_size abi T Alignment < count) (h f b r : Nat)
    (hlog : (allocate abi os T Alignment count w).2.calls.getLast? =
      some (Call.heapAlloc h f b r)) :
    h = (private_heap.getHeap os w).1 ∧ f = 0 ∧ b = requestBytes abi T Alignment count ∧
      r = rawAddress abi os T Alignment count w := by
  rw [allocate_calls abi os T Alignment count w hc hacc] at hlog
  simp at hlog
  obtain ⟨h1, h2, h3, h4⟩ := hlog
  exact ⟨h1.symm, h2.symm, h3.symm, h4.symm⟩

/-- A sum of two words, reduced, is the sum itself or the sum less the modulus. -/
theorem mod_of_lt_two_mul (x W : Nat) (h : x < 2 * W) : x % W = x ∨ x % W + W = x := by
  rcases Nat.lt_or_ge x W with h1 | h1
  · exact Or.inl (Nat.mod_eq_of_lt h1)
  · right
    rw [Nat.mod_eq_sub_mod h1, Nat.mod_eq_of_lt (by omega)]
    omega

/-- The returned pointer never coincides with the raw address: the distance
from the raw address is at least the slot size, also modulo the word size. -/
theorem alignedAddress_ne (abi : Abi) (hconf : abi.Conforming) (T : TypeInfo)
    (Alignment p k : Nat)
    (hk : maxAlignment T Alignment = 2 ^ k) (hlt : maxAlignment T Alignment < abi.modulus)
    (hp : p < abi.modulus) : p ≠ alignedAddress abi T Alignment p := by
  rw [alignedAddress_eq abi T Alignment p k hk hlt]
  have hov := overhead_lt_modulus abi hconf (hk ▸ hlt)
  have hs : 0 < abi.sizeofPointer := by
    obtain ⟨h1, _, h3⟩ := hconf
    omega
  have hpos := Nat.two_pow_pos k
  have hdm := Nat.div_add_mod ((p + (2 ^ k - 1) + abi.sizeofPointer) % abi.modulus) (2 ^ k)
  have hj := Nat.mod_lt ((p + (2 ^ k - 1) + abi.sizeofPointer) % abi.modulus) hpos
  rcases mod_of_lt_two_mul (p + (2 ^ k - 1) + abi.sizeofPointer) abi.modulus (by omega)
    with h1 | h1 <;> omega

/-- C2: round trip over the instrumented heap.  When `allocate(n)` (with `n > 0`
accepted by the size check) obtained the raw address `r` from the heap (as
recorded in the call log) and returned `q`, then in every later world `w2`
whose bytes of the stash slot preceding `q` are those `allocate` left,
`deallocate(q, n2)`, for any count `n2`, appends exactly one `HeapFree` call to
the log (after the handle lookup of `getHeap`), and its argument is `r`, which
differs from `q`. -/
theorem deallocate_frees_raw_address (abi : Abi) (os : Os) (T : TypeInfo)
    (Alignment n : Nat) (w : World) (h f b r q : Nat) (w2 : World) (n2 : Nat)
    (hconf : abi.Conforming)
    (hT : T.alignof < abi.modulus) (hA : Alignment < abi.modulus)
    (hpow : ∃ k, maxAlignment T Alignment = 2 ^ k)
    (hc : 0 < n) (hacc : n ≤ max_size abi T Alignment)
    (hlog : (allocate abi os T Alignment n w).2.calls.getLast? =
      some (Call.heapAlloc h f b r))
    (hq : (allocate abi os T Alignment n w).1 = .ok q)
    (hslot : ∀ x, slotAddress abi q ≤ x → x < slotAddress abi q + abi.sizeofSizeT →
      w2.mem x = (allocate abi os T Alignment n w).2.mem x) :
    (deallocate abi os q n2 w2).calls =
        (private_heap.getHeap os w2).2.calls ++
          [Call.heapFree (private_heap.getHeap os w2).1 0 r] ∧
      (w2.guard = true →
        (deallocate abi os q n2 w2).calls = w2.calls ++ [Call.heapFree w2.m_heap 0 r]) ∧
      r ≠ q := by
  obtain ⟨k, hk⟩ := hpow
  have hc0 : n ≠ 0 := by omega
  have hacc0 : ¬ max_size abi T Alignment < n := by omega
  have hlt := maxAlignment_lt abi T Alignment hT hA
  obtain ⟨_, _, _, hraw⟩ := log_last abi os T Alignment n w hc0 hacc0 h f b r hlog
  have hrlt : r < abi.modulus := hraw ▸ rawAddress_lt abi os T Alignment n w
  rw [allocate_result abi os T Alignment n w hc0 hacc0, ← hraw] at hq
  have hr0 : r ≠ 0 := by
    intro h0
    rw [if_pos h0] at hq
    cases hq
  rw [if_neg hr0] at hq
  have hqe : alignedAddress abi T Alignment r = q := by
    injection hq
  have hmem := allocate_mem abi os T Alignment n w hc0 hacc0
  rw [← hraw, if_neg hr0, hqe] at hmem
  have hload : loadSizeT abi (private_heap.getHeap os w2).2.mem (slotAddress abi q) = r := by
    rw [load_of_stored abi w.mem _ (slotAddress abi q) r, ← modulus_eq_bytes abi hconf]
    · exact Nat.mod_eq_of_lt hrlt
    · intro x hx1 hx2
      rw [getHeap_mem, hslot x hx1 hx2, hmem]
  have hcalls : (deallocate abi os q n2 w2).calls =
      (private_heap.getHeap os w2).2.calls ++
        [Call.heapFree (private_heap.getHeap os w2).1 0 r] := by
    unfold deallocate HeapFree
    simp only [hload]
  refine ⟨hcalls, ?_, ?_⟩
  · intro hg
    rw [hcalls, getHeap_of_guard os w2 hg]
  · rw [← hqe]
    exact alignedAddress_ne abi hconf T Alignment r k hk hlt hrlt

/-- C2, evaluated: `allocate(3)` of `aligned_allocator<int, 16>` obtains `8195`
and returns `8208`; `deallocate(8208, 5)` in the resulting world frees `8195`. -/
theorem deallocate_frees_raw_address_witness :
    (allocate win32 fakeOs T_int 16 3 World.fresh).1 = .ok 8208 ∧
      (deallocate win32 fakeOs 8208 5 (allocate win32 fakeOs T_int 16 3 World.fresh).2).calls =
        (allocate win32 fakeOs T_int 16 3 World.fresh).2.calls ++ [Call.heapFree 7 0 8195] ∧
      (8195 : Nat) ≠ 8208 :=
  have key := deallocate_frees_raw_address win32 fakeOs T_int 16 3 World.fresh 7 0 31 8195 8208
    (allocate win32 fakeOs T_int 16 3 World.fresh).2 5
    (by decide) (by decide) (by decide) ⟨4, by decide⟩ (by decide) (by decide) (by rfl) (by rfl)
    (fun _ _ _ => rfl)
  ⟨by rfl, key.2.1 (by rfl), key.2.2⟩

/-- C5: for a power-of-two effective alignment `M`, slot size
`s = sizeof(size_t)`, element size `e ≥ 1`, an accepted `n > 0` and a raw block
`[r, r + n*e + M - 1 + s)` that does not wrap the address space, with `q` the
pointer `allocate(n)` returns: the block has the requested size, the stash slot
`[q - s, q)` starts at or after `r`, ends exactly at `q` and so lies strictly
before `q`, the caller range `[q, q + n*e)` ends inside the block, and memory
is unchanged outside the slot, hence outside the block. -/
theorem stash_slot_within_block (abi : Abi) (os : Os) (T : TypeInfo)
    (Alignment n : Nat) (w : World) (h f b r q : Nat)
    (hconf : abi.Conforming)
    (hT : T.alignof < abi.modulus) (hA : Alignment < abi.modulus)
    (hpow : ∃ k, maxAlignment T Alignment = 2 ^ k)
    (he : 1 ≤ T.sizeof)
    (hc : 0 < n) (hacc : n ≤ max_size abi T Alignment)
    (hlog : (allocate abi os T Alignment n w).2.calls.getLast? =
      some (Call.heapAlloc h f b r))
    (hq : (allocate abi os T Alignment n w).1 = .ok q)
    (hblock : r + (n * T.sizeof + maxAlignment T Alignment - 1 + abi.sizeofSizeT)
      ≤ abi.modulus) :
    b = n * T.sizeof + maxAlignment T Alignment - 1 + abi.sizeofSizeT ∧
      r ≤ slotAddress abi q ∧
      slotAddress abi q + abi.sizeofSizeT = q ∧
      slotAddress abi q < q ∧
      q + n * T.sizeof ≤ r + (n * T.sizeof + maxAlignment T Alignment - 1 + abi.sizeofSizeT) ∧
      (∀ x, ¬ (slotAddress abi q ≤ x ∧ x < q) →
        (allocate abi os T Alignment n w).2.mem x = w.mem x) ∧
      (∀ x, ¬ (r ≤ x ∧
          x < r + (n * T.sizeof + maxAlignment T Alignment - 1 + abi.sizeofSizeT)) →
        (allocate abi os T Alignment n w).2.mem x = w.mem x) := by
  obtain ⟨k, hk⟩ := hpow
  have hc0 : n ≠ 0 := by omega
  have hacc0 : ¬ max_size abi T Alignment < n := by omega
  have hlt := maxAlignment_lt abi T Alignment hT hA
  obtain ⟨_, _, hb, hraw⟩ := log_last abi os T Alignment n w hc0 hacc0 h f b r hlog
  rw [allocate_result abi os T Alignment n w hc0 hacc0, ← hraw] at hq
  have hr0 : r ≠ 0 := by
    intro h0
    rw [if_pos h0] at hq
    cases hq
  rw [if_neg hr0] at hq
  have hqe : alignedAddress abi T Alignment r = q := by
    injection hq
  have hmem := allocate_mem abi os T Alignment n w hc0 hacc0
  rw [← hraw, if_neg hr0, hqe] at hmem
  have hss : abi.sizeofSizeT = abi.sizeofPointer := hconf.1
  have hs : 0 < abi.sizeofSizeT := hconf.2.2
  have hne : 1 ≤ n * T.sizeof := Nat.mul_pos hc he
  have hpos := Nat.two_pow_pos k
  rw [requestBytes_eq abi hconf T Alignment k n hk hlt he hacc0] at hb
  rw [alignedAddress_eq abi T Alignment r k hk hlt] at hqe
  rw [hk] at hblock hb ⊢
  rw [Nat.mod_eq_of_lt (by omega)] at hqe
  have hdm := Nat.div_add_mod (r + (2 ^ k - 1) + abi.sizeofPointer) (2 ^ k)
  have hj := Nat.mod_lt (r + (2 ^ k - 1) + abi.sizeofPointer) hpos
  have hslotq : slotAddress abi q = q - abi.sizeofSizeT := by
    unfold slotAddress
    exact sub_of_le abi (by omega) (by omega)
  rw [hslotq]
  have hout : ∀ x, ¬ (q - abi.sizeofSizeT ≤ x ∧ x < q) →
      (allocate abi os T Alignment n w).2.mem x = w.mem x := by
    intro x hx
    rw [hmem, hslotq]
    apply store_outside
    intro hin
    apply hx
    omega
  refine ⟨by omega, by omega, by omega, by omega, by omega, hout, ?_⟩
  intro x hx
  apply hout
  intro hin
  apply hx
  omega

/-- C5, evaluated: the block `[8195, 8226)` of `aligned_allocator<int, 16>`,
`allocate(3)`, holds the slot `[8204, 8208)` and the caller range `[8208, 8220)`. -/
theorem stash_slot_within_block_witness :
    (allocate win32 fakeOs T_int 16 3 World.fresh).1 = .ok 8208 ∧
      8195 ≤ slotAddress win32 8208 ∧
      slotAddress win32 8208 + win32.sizeofSizeT = 8208 ∧
      8208 + 3 * T_int.sizeof
        ≤ 8195 + (3 * T_int.sizeof + maxAlignment T_int 16 - 1 + win32.sizeofSizeT) :=
  have key := stash_slot_within_block win32 fakeOs T_int 16 3 World.fresh 7 0 31 8195 8208
    (by decide) (by decide) (by decide) ⟨4, by decide⟩ (by decide) (by decide) (by decide)
    (by rfl) (by rfl) (by decide)
  ⟨by rfl, key.2.1, key.2.2.1, key.2.2.2.2.1⟩

/-- C6: with a power-of-two effective alignment `M`, element size `e ≥ 1` and
slot size `s`, `allocate(count)` for `count > 0` raises `length_error` exactly
when `count*e + M - 1 + s` exceeds `SIZE_MAX` in exact arithmetic, which is
exactly when `count > max_size() = (SIZE_MAX - (M - 1 + s)) / e`; a rejected
call leaves the world untouched; for an accepted `count` the machine-word
computation of the size does not wrap and that number of bytes is requested
from the heap. -/
theorem allocate_size_check_exact (abi : Abi) (os : Os) (T : TypeInfo)
    (Alignment count : Nat) (w : World)
    (hconf : abi.Conforming)
    (hT : T.alignof < abi.modulus) (hA : Alignment < abi.modulus)
    (hpow : ∃ k, maxAlignment T Alignment = 2 ^ k)
    (he : 1 ≤ T.sizeof) (hc : 0 < count) :
    ((allocate abi os T Alignment count w).1 = .error .length_error ↔
        abi.SIZE_MAX < count * T.sizeof + maxAlignment T Alignment - 1 + abi.sizeofPointer) ∧
      (abi.SIZE_MAX < count * T.sizeof + maxAlignment T Alignment - 1 + abi.sizeofPointer ↔
        max_size abi T Alignment < count) ∧
      max_size abi T Alignment =
        (abi.SIZE_MAX - (maxAlignment T Alignment - 1 + abi.sizeofPointer)) / T.sizeof ∧
      (max_size abi T Alignment < count →
        allocate abi os T Alignment count w = (.error .length_error, w)) ∧
      (¬ max_size abi T Alignment < count →
        requestBytes abi T Alignment count =
            count * T.sizeof + maxAlignment T Alignment - 1 + abi.sizeofPointer ∧
          count * T.sizeof + maxAlignment T Alignment - 1 + abi.sizeofPointer ≤ abi.SIZE_MAX ∧
          ∃ r, (allocate abi os T Alignment count w).2.calls =
            (private_heap.getHeap os w).2.calls ++
              [Call.heapAlloc (private_heap.getHeap os w).1 0
                (count * T.sizeof + maxAlignment T Alignment - 1 + abi.sizeofPointer) r]) := by
  obtain ⟨k, hk⟩ := hpow
  have hc0 : count ≠ 0 := by omega
  have hlt := maxAlignment_lt abi T Alignment hT hA
  have hiff := accepted_iff abi hconf T Alignment k count hk hlt he
  refine ⟨?_, hiff.symm, max_size_eq abi hconf T Alignment k hk hlt,
    allocate_rejected abi os T Alignment count w hc0, ?_⟩
  · rw [← hiff]
    constructor
    · intro hres
      by_contra hacc
      rw [allocate_result abi os T Alignment count w hc0 hacc] at hres
      split at hres <;> cases hres
    · intro hrej
      rw [allocate_rejected abi os T Alignment count w hc0 hrej]
  · intro hacc
    have hreq := requestBytes_eq abi hconf T Alignment k count hk hlt he hacc
    refine ⟨hreq, ?_, rawAddress abi os T Alignment count w, ?_⟩
    · rw [hiff] at hacc
      omega
    · rw [allocate_calls abi os T Alignment count w hc0 hacc, hreq]

/-- C6, evaluated on the 32-bit target for `aligned_allocator<int, 16>`:
`max_size()` is `1073741819`; that count is accepted and asks for `4294967295`
bytes, the next one is rejected. -/
theorem allocate_size_check_exact_witness :
    max_size win32 T_int 16 = 1073741819 ∧
      requestBytes win32 T_int 16 1073741819 = 4294967295 ∧
      (allocate win32 fakeOs T_int 16 1073741820 World.fresh).1 = .error .length_error :=
  ⟨by rfl,
    ((allocate_size_check_exact win32 fakeOs T_int 16 1073741819 World.fresh
      (by decide) (by decide) (by decide) ⟨4, by decide⟩ (by decide) (by decide)).2.2.2.2
        (by decide)).1,
    (allocate_size_check_exact win32 fakeOs T_int 16 1073741820 World.fresh
      (by decide) (by decide) (by decide) ⟨4, by decide⟩ (by decide) (by decide)).1.2
        (by decide)⟩

end aligned_allocator

/-! ## Claims on the size check and on `default_allocator` -/

/-- C4: for both allocators and every state of the world, `allocate(0)` returns
the null pointer without error and leaves the world as it was: no call is
logged and the heap of `getHeap` is not created. -/
theorem allocate_zero_is_null (abi : Abi) (os : Os) (T : TypeInfo) (Alignment : Nat)
    (w : World) :
    default_allocator.allocate abi os T 0 w = (.ok 0, w) ∧
      aligned_allocator.allocate abi os T Alignment 0 w = (.ok 0, w) := by
  constructor
  · unfold default_allocator.allocate
    simp
  · unfold aligned_allocator.allocate
    simp

theorem default_max_size_lt_iff (abi : Abi) (T : TypeInfo) (count : Nat) (he : 1 ≤ T.sizeof) :
    default_allocator.max_size abi T < count ↔ abi.SIZE_MAX < count * T.sizeof := by
  unfold default_allocator.max_size
  exact Nat.div_lt_iff_lt_mul he

theorem default_allocate_rejected (abi : Abi) (os : Os) (T : TypeInfo) (count : Nat) (w : World)
    (hc : count ≠ 0) (hrej : default_allocator.max_size abi T < count) :
    default_allocator.allocate abi os T count w = (.error .length_error, w) := by
  unfold default_allocator.allocate
  rw [if_pos hc, if_pos hrej]

theorem default_allocate_accepted (abi : Abi) (os : Os) (T : TypeInfo) (count : Nat) (w : World)
    (hc : count ≠ 0) (hacc : ¬ default_allocator.max_size abi T < count) :
    ∃ r, (default_allocator.allocate abi os T count w).2.calls =
          (private_heap.getHeap os w).2.calls ++
            [Call.heapAlloc (private_heap.getHeap os w).1 0 (abi.mul count T.sizeof) r] ∧
        (r = 0 → (default_allocator.allocate abi os T count w).1 = .error .bad_alloc) ∧
        (r ≠ 0 → (default_allocator.allocate abi os T count w).1 = .ok r) := by
  refine ⟨(HeapAlloc abi os (private_heap.getHeap os w).1 0 (abi.mul count T.sizeof)
    (private_heap.getHeap os w).2).1, ?_, ?_, ?_⟩
  · unfold default_allocator.allocate
    rw [if_pos hc, if_neg hacc]
    dsimp only
    split <;> rfl
  · intro h0
    unfold default_allocator.allocate
    rw [if_pos hc, if_neg hacc]
    dsimp only
    rw [if_pos h0]
  · intro h0
    unfold default_allocator.allocate
    rw [if_pos hc, if_neg hacc]
    dsimp only
    rw [if_neg h0]

/-- C7: for `default_allocator` with element size `e ≥ 1` and `count > 0`,
`allocate(count)` raises `length_error`, with the world untouched, if and only
if `count > SIZE_MAX / e`, if and only if `count * e` exceeds `SIZE_MAX` in
exact arithmetic; otherwise `count * e` does not wrap, exactly one `HeapAlloc`
call asking for `count * e` bytes is logged after the handle lookup, and the
result is `bad_alloc` when the heap answers null and the answered address
otherwise. -/
theorem default_allocate_contract (abi : Abi) (os : Os) (T : TypeInfo) (count : Nat)
    (w : World) (he : 1 ≤ T.sizeof) (hc : 0 < count) :
    ((default_allocator.allocate abi os T count w).1 = .error .length_error ↔
        abi.SIZE_MAX / T.sizeof < count) ∧
      (abi.SIZE_MAX / T.sizeof < count ↔ abi.SIZE_MAX < count * T.sizeof) ∧
      (abi.SIZE_MAX / T.sizeof < count →
        default_allocator.allocate abi os T count w = (.error .length_error, w)) ∧
      (¬ abi.SIZE_MAX / T.sizeof < count →
        abi.mul count T.sizeof = count * T.sizeof ∧
        ∃ r, (default_allocator.allocate abi os T count w).2.calls =
            (private_heap.getHeap os w).2.calls ++
              [Call.heapAlloc (private_heap.getHeap os w).1 0 (count * T.sizeof) r] ∧
          (r = 0 → (default_allocator.allocate abi os T count w).1 = .error .bad_alloc) ∧
          (r ≠ 0 → (default_allocator.allocate abi os T count w).1 = .ok r)) := by
  have hc0 : count ≠ 0 := by omega
  have hiff := default_max_size_lt_iff abi T count he
  have hms : default_allocator.max_size abi T = abi.SIZE_MAX / T.sizeof := rfl
  rw [hms] at hiff
  refine ⟨?_, hiff, ?_, ?_⟩
  · constructor
    · intro hres
      by_contra hacc
      obtain ⟨r, _, h0, h1⟩ := default_allocate_accepted abi os T count w hc0 hacc
      by_cases hr : r = 0
      · rw [h0 hr] at hres
        cases hres
      · rw [h1 hr] at hres
        cases hres
    · intro hrej
      rw [default_allocate_rejected abi os T count w hc0 hrej]
  · exact default_allocate_rejected abi os T count w hc0
  · intro hacc
    have hmul : abi.mul count T.sizeof = count * T.sizeof := by
      apply mul_of_lt
      rw [hiff] at hacc
      have := modulus_pos abi
      unfold Abi.SIZE_MAX at hacc
      omega
    obtain ⟨r, hcalls, h0, h1⟩ := default_allocate_accepted abi os T count w hc0 hacc
    rw [hmul] at hcalls
    exact ⟨hmul, r, hcalls, h0, h1⟩

/-- C7, evaluated on the 32-bit target for `default_allocator<int>`: the count
`1073741823 = SIZE_MAX / 4` is accepted and asks for `4294967292` bytes, the
next count is rejected. -/
theorem default_allocate_contract_witness :
    (default_allocator.allocate win32 fakeOs T_int 1073741824 World.fresh).1 =
        .error .length_error ∧
      win32.mul 1073741823 T_int.sizeof = 1073741823 * T_int.sizeof ∧
      (default_allocator.allocate win32 fakeOs T_int 1073741823 World.fresh).1 = .ok 8195 :=
  ⟨(default_allocate_contract win32 fakeOs T_int 1073741824 World.fresh
      (by decide) (by decide)).1.2 (by decide),
    ((default_allocate_contract win32 fakeOs T_int 1073741823 World.fresh
      (by decide) (by decide)).2.2.2 (by decide)).1,
    by rfl⟩

/-- C3, refuted as stated: for the non-empty element type `char`
(`sizeof(char) = 1`), `default_allocator<char>::allocate(SIZE_MAX)` on the
32-bit target passes the size check, calls `HeapAlloc` for `4294967295` bytes
and, the heap answering null, raises `bad_alloc`. -/
theorem allocate_size_max_char_counterexample :
    1 ≤ T_char.sizeof ∧
      (default_allocator.allocate win32 failingOs T_char win32.SIZE_MAX World.fresh).1 =
        .error .bad_alloc ∧
      (default_allocator.allocate win32 failingOs T_char win32.SIZE_MAX World.fresh).2.calls =
        [Call.heapCreate 7, Call.heapAlloc 7 0 4294967295 0] :=
  ⟨by decide, by rfl, by rfl⟩

/-- C3, amended: on a conforming target, `allocate(SIZE_MAX)` raises
`length_error` and leaves the world untouched (no `bad_alloc`, no heap call)
for `aligned_allocator` with any `sizeof(T) ≥ 1` and a power-of-two effective
alignment, and for `default_allocator` with `sizeof(T) ≥ 2`; for
`default_allocator` with `sizeof(T) = 1`, `max_size()` is `SIZE_MAX`, the size
check passes and `SIZE_MAX` bytes are requested from the heap. -/
theorem allocate_size_max (abi : Abi) (os : Os) (T : TypeInfo) (Alignment : Nat) (w : World)
    (hconf : abi.Conforming) (he : 1 ≤ T.sizeof) :
    (T.alignof < abi.modulus → Alignment < abi.modulus →
        (∃ k, aligned_allocator.maxAlignment T Alignment = 2 ^ k) →
        aligned_allocator.allocate abi os T Alignment abi.SIZE_MAX w =
          (.error .length_error, w)) ∧
      (2 ≤ T.sizeof →
        default_allocator.allocate abi os T abi.SIZE_MAX w = (.error .length_error, w)) ∧
      (T.sizeof = 1 →
        default_allocator.max_size abi T = abi.SIZE_MAX ∧
        (default_allocator.allocate abi os T abi.SIZE_MAX w).1 ≠ .error .length_error ∧
        ∃ r, (default_allocator.allocate abi os T abi.SIZE_MAX w).2.calls =
          (private_heap.getHeap os w).2.calls ++
            [Call.heapAlloc (private_heap.getHeap os w).1 0 abi.SIZE_MAX r]) := by
  have hs : 0 < abi.sizeofPointer := by
    obtain ⟨h1, _, h3⟩ := hconf
    omega
  have hbits : 1 ≤ abi.bits := by
    obtain ⟨_, h2, h3⟩ := hconf
    omega
  have hW : 2 ≤ abi.modulus := by
    unfold Abi.modulus
    calc 2 = 2 ^ 1 := rfl
      _ ≤ 2 ^ abi.bits := Nat.pow_le_pow_right (by decide) hbits
  have hsm : abi.SIZE_MAX = abi.modulus - 1 := rfl
  have hne : abi.SIZE_MAX ≠ 0 := by omega
  refine ⟨?_, ?_, ?_⟩
  · intro hT hA hpow
    obtain ⟨k, hk⟩ := hpow
    have hlt := aligned_allocator.maxAlignment_lt abi T Alignment hT hA
    apply aligned_allocator.allocate_rejected abi os T Alignment _ w hne
    rw [aligned_allocator.accepted_iff abi hconf T Alignment k _ hk hlt he, hk]
    have hpos := Nat.two_pow_pos k
    have : abi.SIZE_MAX * 1 ≤ abi.SIZE_MAX * T.sizeof := Nat.mul_le_mul_left _ he
    omega
  · intro h2
    apply default_allocate_rejected abi os T _ w hne
    rw [default_max_size_lt_iff abi T _ he]
    have : abi.SIZE_MAX * 2 ≤ abi.SIZE_MAX * T.sizeof := Nat.mul_le_mul_left _ h2
    omega
  · intro h1
    have hms : default_allocator.max_size abi T = abi.SIZE_MAX := by
      unfold default_allocator.max_size
      rw [h1, Nat.div_one]
    have hacc : ¬ default_allocator.max_size abi T < abi.SIZE_MAX := by
      rw [hms]; omega
    obtain ⟨r, hcalls, h0, hr⟩ := default_allocate_accepted abi os T _ w hne hacc
    have hmul : abi.mul abi.SIZE_MAX T.sizeof = abi.SIZE_MAX := by
      rw [h1, mul_of_lt abi (by omega), Nat.mul_one]
    refine ⟨hms, ?_, r, ?_⟩
    · by_cases hr0 : r = 0
      · rw [h0 hr0]; intro hx; cases hx
      · rw [hr hr0]; intro hx; cases hx
    · rw [hcalls, hmul]

/-- C3 amended, evaluated on the 32-bit target for the element type `int`. -/
theorem allocate_size_max_witness :
    win32.Conforming ∧
      aligned_allocator.allocate win32 fakeOs T_int 16 win32.SIZE_MAX World.fresh =
        (.error .length_error, World.fresh) ∧
      default_allocator.allocate win32 fakeOs T_int win32.SIZE_MAX World.fresh =
        (.error .length_error, World.fresh) :=
  ⟨by decide,
    (allocate_size_max win32 fakeOs T_int 16 World.fresh (by decide) (by decide)).1
      (by decide) (by decide) ⟨4, by decide⟩,
    (allocate_size_max win32 fakeOs T_int 16 World.fresh (by decide) (by decide)).2.1
      (by decide)⟩

/-! ## Claims on the construction-time check and on equality -/

namespace aligned_allocator

/-- The `static_assert` condition holds exactly for a power-of-two `M`. -/
theorem static_assert_ok_iff_pow (abi : Abi) (T : TypeInfo) (Alignment : Nat)
    (h1 : 1 ≤ T.alignof) (hT : T.alignof < abi.modulus) (hA : Alignment < abi.modulus) :
    static_assert_ok abi T Alignment = true ↔ ∃ k, maxAlignment T Alignment = 2 ^ k := by
  have hlt := maxAlignment_lt abi T Alignment hT hA
  have hM : 1 ≤ maxAlignment T Alignment := by
    unfold maxAlignment max
    split <;> omega
  unfold static_assert_ok
  rw [sub_of_le abi hM hlt, ← and_pred_eq_zero_iff _ hM]
  simp only [beq_iff_eq]
  exact eq_comm

theorem three_not_pow : ¬ ∃ k, 3 = 2 ^ k := by
  rintro ⟨k, hk⟩
  rcases k with _ | _ | k
  · simp at hk
  · simp at hk
  · rw [pow_succ, pow_succ] at hk
    omega

/-- C8, refuted as stated: the requested alignment `3` is not a power of two,
yet `aligned_allocator<int, 3>` passes the construction-time check on the
32-bit target, because `M = max(alignof(int), 3) = 4`. -/
theorem static_assert_accepts_three_counterexample :
    (¬ ∃ k, 3 = 2 ^ k) ∧ maxAlignment T_int 3 = 4 ∧ static_assert_ok win32 T_int 3 = true :=
  ⟨three_not_pow, by rfl, by rfl⟩

/-- C8, amended: for a requested alignment `A` that is not a power of two and an
element type whose own alignment is a power of two, the construction-time
check `0 == ((M - 1) & M)` with `M = max(alignof(T), A)` rejects the
instantiation exactly when `A > alignof(T)`. -/
theorem static_assert_rejects_iff (abi : Abi) (T : TypeInfo) (Alignment j : Nat)
    (hj : T.alignof = 2 ^ j) (hT : T.alignof < abi.modulus) (hA : Alignment < abi.modulus)
    (hnp : ¬ ∃ k, Alignment = 2 ^ k) :
    static_assert_ok abi T Alignment = false ↔ T.alignof < Alignment := by
  have h1 : 1 ≤ T.alignof := by
    rw [hj]; exact Nat.two_pow_pos j
  have hiff := static_assert_ok_iff_pow abi T Alignment h1 hT hA
  have hne : Alignment ≠ T.alignof := by
    intro h
    exact hnp ⟨j, h.trans hj⟩
  constructor
  · intro hf
    by_contra hle
    have hM : maxAlignment T Alignment = T.alignof := by
      unfold maxAlignment max
      rw [if_pos (by omega)]
    have : static_assert_ok abi T Alignment = true := hiff.2 ⟨j, hM.trans hj⟩
    rw [hf] at this
    cases this
  · intro hlt
    have hM : maxAlignment T Alignment = Alignment := by
      unfold maxAlignment max
      rw [if_neg (by omega)]
    cases hb : static_assert_ok abi T Alignment
    · rfl
    · obtain ⟨k, hk⟩ := hiff.1 hb
      exact absurd ⟨k, hM.symm.trans hk⟩ hnp

/-- C8 amended, evaluated: `aligned_allocator<int, 24>` is rejected on the
32-bit target, `24` being neither a power of two nor at most `alignof(int)`. -/
theorem static_assert_rejects_iff_witness :
    T_int.alignof < 24 ∧ static_assert_ok win32 T_int 24 = false :=
  have hnp : ¬ ∃ k, 24 = 2 ^ k := by
    rintro ⟨k, hk⟩
    rcases k with _ | _ | _ | _ | _ | k
    · simp at hk
    · simp at hk
    · simp at hk
    · simp at hk
    · simp at hk
    · rw [pow_succ, pow_succ, pow_succ, pow_succ, pow_succ] at hk
      omega
  ⟨by decide,
    (static_assert_rejects_iff win32 T_int 24 2 (by rfl) (by decide) (by decide) hnp).2
      (by decide)⟩

/-- C9: for every element type with `alignof(T) ≥ 1` and every requested
alignment, both `size_t` values, with `M = max(alignof(T), Alignment)`, the
construction-time check `0 == ((M - 1) & M)` passes if and only if `M = 2 ^ k`
for some `k ≥ 0`. -/
theorem static_assert_iff_power_of_two (abi : Abi) (T : TypeInfo) (Alignment : Nat)
    (h1 : 1 ≤ T.alignof) (hT : T.alignof < abi.modulus) (hA : Alignment < abi.modulus) :
    static_assert_ok abi T Alignment = true ↔ ∃ k, maxAlignment T Alignment = 2 ^ k :=
  static_assert_ok_iff_pow abi T Alignment h1 hT hA

/-- C9, evaluated: `aligned_allocator<int, 16>` passes the check, so its
effective alignment is a power of two. -/
theorem static_assert_iff_power_of_two_witness :
    static_assert_ok win32 T_int 16 = true ∧ ∃ k, maxAlignment T_int 16 = 2 ^ k :=
  ⟨by rfl,
    (static_assert_iff_power_of_two win32 T_int 16 (by decide) (by decide) (by decide)).1
      (by rfl)⟩

/-- Comparing an allocator with one of its own class is well-formed and yields
equality. -/
theorem operator_eq_same_class (a : Specialization) :
    operator_eq a a = .ok true ∧ operator_ne a a = .ok false := by
  have h : operator_eq a a = .ok true := by
    simp [operator_eq, Specialization.sameClass]
  exact ⟨h, by rw [operator_ne, h]; rfl⟩

/-- C10, evaluated where the code fails: `aligned_allocator<int, 16>` and
`aligned_allocator<double, 16>` have the same effective alignment `16`, so the
comparison ought to yield true, and `aligned_allocator<int, 16>` and
`aligned_allocator<int, 32>` have the effective alignments `16` and `32`, so it
ought to yield false; both comparisons, by `operator ==` and by `operator !=`,
are ill-formed, `maxAlignment` being private in the class of the right operand.
Only an allocator of the same class can be compared. -/
theorem operator_eq_cross_specialization_ill_formed :
    Nat.max T_int.alignof 16 = Nat.max T_double.alignof 16 ∧
      operator_eq alloc_int_16 alloc_double_16 = .error .private_member_inaccessible ∧
      operator_ne alloc_int_16 alloc_double_16 = .error .private_member_inaccessible ∧
      Nat.max T_int.alignof 16 ≠ Nat.max T_int.alignof 32 ∧
      operator_eq alloc_int_16 alloc_int_32 = .error .private_member_inaccessible ∧
      operator_ne alloc_int_16 alloc_int_32 = .error .private_member_inaccessible ∧
      operator_eq alloc_int_16 alloc_int_16 = .ok true ∧
      operator_ne alloc_int_16 alloc_int_16 = .ok false :=
  ⟨by decide, by rfl, by rfl, by decide, by rfl, by rfl, by rfl, by rfl⟩

end aligned_allocator

/-! ## Claims on `default_allocator` equality and on the heap provider -/

/-- C11: two `default_allocator` instances compare equal whatever their element
types, also when one is the rebound allocator of the other: `operator ==`
returns true and `operator !=` returns false. -/
theorem default_operator_eq_always (T U : TypeInfo) :
    default_allocator.operator_eq T U = true ∧
      default_allocator.operator_ne T U = false ∧
      default_allocator.operator_eq T (default_allocator.rebind T U) = true ∧
      default_allocator.operator_ne (default_allocator.rebind T U) T = false :=
  ⟨rfl, rfl, rfl, rfl⟩

theorem getHeapTimes_of_guard (os : Os) (n : Nat) (w : World) (hg : w.guard = true) :
    private_heap.getHeapTimes os n w = (List.replicate n w.m_heap, w) := by
  induction n with
  | zero => rfl
  | succ n ih =>
    rw [private_heap.getHeapTimes, getHeap_of_guard os w hg]
    dsimp only
    rw [ih]
    rfl

theorem getHeap_first (os : Os) (w : World) (hg : w.guard = false) :
    private_heap.getHeap os w =
      (os.create w.calls,
        { guard := true, m_heap := os.create w.calls, mem := w.mem,
          calls := w.calls ++ [Call.heapCreate (os.create w.calls)] }) := by
  unfold private_heap.getHeap private_heap.createHeap
  rw [hg]
  rfl

/-- C15: with the heap provider as explicit state, starting from the state
"handle not yet created", a sequence of `n + 1` calls of `getHeap` logs exactly
one platform call, the heap creation, made by the first call, and every call
returns the handle that creation produced; from a state "created with handle
h", calls return `h` and leave the world as it is. -/
theorem getHeap_creates_once (os : Os) (w : World) (n : Nat) (hg : w.guard = false) :
    (private_heap.getHeap os w).2.calls = w.calls ++ [Call.heapCreate (os.create w.calls)] ∧
      (private_heap.getHeapTimes os (n + 1) w).2.calls =
        w.calls ++ [Call.heapCreate (os.create w.calls)] ∧
      (private_heap.getHeapTimes os (n + 1) w).1 =
        List.replicate (n + 1) (os.create w.calls) ∧
      (∀ (w2 : World) (k : Nat), w2.guard = true →
        private_heap.getHeapTimes os k w2 = (List.replicate k w2.m_heap, w2)) := by
  refine ⟨?_, ?_, ?_, fun w2 k h2 => getHeapTimes_of_guard os k w2 h2⟩
  · rw [getHeap_first os w hg]
  · rw [private_heap.getHeapTimes, getHeap_first os w hg]
    dsimp only
    rw [getHeapTimes_of_guard os n _ rfl]
  · rw [private_heap.getHeapTimes, getHeap_first os w hg]
    dsimp only
    rw [getHeapTimes_of_guard os n _ rfl]
    rfl

/-- C15, evaluated: three calls of `getHeap` in a fresh process create the heap
once and return its handle `7` each time. -/
theorem getHeap_creates_once_witness :
    World.fresh.guard = false ∧
      (private_heap.getHeapTimes fakeOs 3 World.fresh).2.calls = [Call.heapCreate 7] ∧
      (private_heap.getHeapTimes fakeOs 3 World.fresh).1 = [7, 7, 7] :=
  ⟨rfl, (getHeap_creates_once fakeOs World.fresh 2 rfl).2.1,
    (getHeap_creates_once fakeOs World.fresh 2 rfl).2.2.1⟩

/-! ## Claims on the pointer functors -/

/-- C12: `smart_ptr_equal_to` on owning pointers of one type: two null pointers
are equal; a null and a non-null pointer are unequal, in either order; two
non-null pointers compare as their pointees do, whatever their addresses. -/
theorem smart_ptr_equal_to_cases {α : Type} (equal : α → α → Bool) :
    smart_ptr_equal_to equal SmartPtr.null SmartPtr.null = true ∧
      (∀ (b : Nat) (hb : b ≠ 0) (y : α),
        smart_ptr_equal_to equal SmartPtr.null (SmartPtr.owning b hb y) = false ∧
        smart_ptr_equal_to equal (SmartPtr.owning b hb y) SmartPtr.null = false) ∧
      (∀ (a : Nat) (ha : a ≠ 0) (x : α) (b : Nat) (hb : b ≠ 0) (y : α),
        smart_ptr_equal_to equal (SmartPtr.owning a ha x) (SmartPtr.owning b hb y)
          = equal x y) := by
  refine ⟨rfl, ?_, fun _ _ _ _ _ _ => rfl⟩
  intro b hb y
  constructor
  · simp only [smart_ptr_equal_to, SmartPtr.get]
    exact beq_false_of_ne (Ne.symm hb)
  · simp only [smart_ptr_equal_to, SmartPtr.get]
    exact beq_false_of_ne hb

/-- C12, evaluated: two distinct non-null pointers, at `16` and `32`, to the
equal pointees `5` compare equal; a null and a non-null pointer do not. -/
theorem smart_ptr_equal_to_cases_witness :
    smart_ptr_equal_to (fun x y : Nat => x == y)
        (SmartPtr.owning 16 (by decide) 5) (SmartPtr.owning 32 (by decide) 5) = true ∧
      smart_ptr_equal_to (fun x y : Nat => x == y)
        SmartPtr.null (SmartPtr.owning 32 (by decide) 5) = false :=
  ⟨(smart_ptr_equal_to_cases (fun x y : Nat => x == y)).2.2 16 (by decide) 5 32 (by decide) 5,
    ((smart_ptr_equal_to_cases (fun x y : Nat => x == y)).2.1 32 (by decide) 5).1⟩

/-- C16: `smart_ptr_hash` is `0` on the null pointer and, on a non-null
pointer, the hash of the pointee, whatever the address. -/
theorem smart_ptr_hash_cases {α : Type} (hasher : α → Nat) :
    smart_ptr_hash hasher SmartPtr.null = 0 ∧
      (∀ (a : Nat) (ha : a ≠ 0) (x : α),
        smart_ptr_hash hasher (SmartPtr.owning a ha x) = hasher x) :=
  ⟨rfl, fun _ _ _ => rfl⟩

/-- C16, evaluated with the hash `x % 7` at the pointee `10`. -/
theorem smart_ptr_hash_cases_witness :
    smart_ptr_hash (fun x : Nat => x % 7) (SmartPtr.owning 16 (by decide) 10) = 3 :=
  (smart_ptr_hash_cases (fun x : Nat => x % 7)).2 16 (by decide) 10

/-- C20: when the hash of the pointee type agrees with its equality, the two
functors agree as well: pointers that `smart_ptr_equal_to` finds equal, null
or not, have the same `smart_ptr_hash`. -/
theorem smart_ptr_hash_respects_equal_to {α : Type} (equal : α → α → Bool) (hasher : α → Nat)
    (hcons : ∀ x y, equal x y = true → hasher x = hasher y)
    (a b : SmartPtr α) (heq : smart_ptr_equal_to equal a b = true) :
    smart_ptr_hash hasher a = smart_ptr_hash hasher b := by
  cases a with
  | null =>
    cases b with
    | null => rfl
    | owning addr hb y =>
      simp only [smart_ptr_equal_to, SmartPtr.get] at heq
      exact absurd (eq_of_beq heq).symm hb
  | owning addr ha x =>
    cases b with
    | null =>
      simp only [smart_ptr_equal_to, SmartPtr.get] at heq
      exact absurd (eq_of_beq heq) ha
    | owning addr2 hb y => exact hcons x y heq

/-- C20, evaluated: with equality of naturals and the hash `x % 7`, the equal
pointers to `10` at the addresses `16` and `32` have equal hashes. -/
theorem smart_ptr_hash_respects_equal_to_witness :
    smart_ptr_hash (fun x : Nat => x % 7) (SmartPtr.owning 16 (by decide) 10) =
      smart_ptr_hash (fun x : Nat => x % 7) (SmartPtr.owning 32 (by decide) 10) :=
  smart_ptr_hash_respects_equal_to (fun x y : Nat => x == y) (fun x : Nat => x % 7)
    (fun x y h => by rw [eq_of_beq h])
    (SmartPtr.owning 16 (by decide) 10) (SmartPtr.owning 32 (by decide) 10) rfl

/-! ## Claims on the lock guards -/

/-- C13: the calls an exclusive guard makes on a call-recording mutex over its
whole life are `[lockExclusive, unlockExclusive]` after the blocking
constructor, `[unlockExclusive]` after the adopt constructor, and after the try
constructor `[tryLockExclusive, unlockExclusive]` when the attempt succeeds and
`[tryLockExclusive]` alone when it fails, the guard then being false; the
destructor makes one `unlockExclusive` call when the guard holds and no call
otherwise. -/
theorem exclusive_guard_call_sequence (m : Mutex) (g : lock_guard_exclusive) :
    (lock_guard_exclusive.lifetime LockMode.blocking m).2.calls =
        m.calls ++ [MutexCall.lockExclusive, MutexCall.unlockExclusive] ∧
      (lock_guard_exclusive.lifetime LockMode.adopt_lock m).2.calls =
        m.calls ++ [MutexCall.unlockExclusive] ∧
      (lock_guard_exclusive.lifetime LockMode.try_to_lock m).2.calls =
        m.calls ++ (if m.tryExclusive m.calls
          then [MutexCall.tryLockExclusive, MutexCall.unlockExclusive]
          else [MutexCall.tryLockExclusive]) ∧
      (lock_guard_exclusive.lifetime LockMode.try_to_lock m).1 = m.tryExclusive m.calls ∧
      (lock_guard_exclusive.dtor g m).calls =
        m.calls ++ (if g.m_bOwns then [MutexCall.unlockExclusive] else []) := by
  refine ⟨?_, ?_, ?_, rfl, ?_⟩
  · simp [lock_guard_exclusive.lifetime, lock_guard_exclusive.construct,
      lock_guard_exclusive.ctor, lock_guard_exclusive.dtor, Mutex.lockExclusive,
      Mutex.unlockExclusive]
  · simp [lock_guard_exclusive.lifetime, lock_guard_exclusive.construct,
      lock_guard_exclusive.ctor_adopt, lock_guard_exclusive.dtor, Mutex.unlockExclusive]
  · cases hans : m.tryExclusive m.calls <;>
      simp [lock_guard_exclusive.lifetime, lock_guard_exclusive.construct,
        lock_guard_exclusive.ctor_try, lock_guard_exclusive.dtor, Mutex.tryLockExclusive,
        Mutex.unlockExclusive, hans]
  · cases hown : g.m_bOwns <;>
      simp [lock_guard_exclusive.dtor, Mutex.unlockExclusive, hown]

/-- C14: for both guard variants the truthiness right after construction is
true after the blocking constructor, true after the adopt constructor, and
after the try constructor the answer of the one non-blocking acquisition it
makes on the mutex. -/
theorem guard_truthiness_after_construction (m : Mutex) :
    (lock_guard_exclusive.ctor m).1.operator_bool = true ∧
      (lock_guard_exclusive.ctor_adopt m).1.operator_bool = true ∧
      (lock_guard_exclusive.ctor_try m).1.operator_bool = m.tryExclusive m.calls ∧
      (lock_guard_exclusive.ctor_try m).2.calls = m.calls ++ [MutexCall.tryLockExclusive] ∧
      (lock_guard_shared.ctor m).1.operator_bool = true ∧
      (lock_guard_shared.ctor_adopt m).1.operator_bool = true ∧
      (lock_guard_shared.ctor_try m).1.operator_bool = m.tryShared m.calls ∧
      (lock_guard_shared.ctor_try m).2.calls = m.calls ++ [MutexCall.tryLockShared] :=
  ⟨rfl, rfl, rfl, rfl, rfl, rfl, rfl, rfl⟩

theorem exclusive_lifetime_calls (mode : LockMode) (m : Mutex) :
    (lock_guard_exclusive.lifetime mode m).2.calls = m.calls ++
      (match mode with
        | .blocking => [MutexCall.lockExclusive, MutexCall.unlockExclusive]
        | .adopt_lock => [MutexCall.unlockExclusive]
        | .try_to_lock =>
          if m.tryExclusive m.calls
          then [MutexCall.tryLockExclusive, MutexCall.unlockExclusive]
          else [MutexCall.tryLockExclusive]) := by
  cases mode
  · simp [lock_guard_exclusive.lifetime, lock_guard_exclusive.construct,
      lock_guard_exclusive.ctor, lock_guard_exclusive.dtor, Mutex.lockExclusive,
      Mutex.unlockExclusive]
  · simp [lock_guard_exclusive.lifetime, lock_guard_exclusive.construct,
      lock_guard_exclusive.ctor_adopt, lock_guard_exclusive.dtor, Mutex.unlockExclusive]
  · cases hans : m.tryExclusive m.calls <;>
      simp [lock_guard_exclusive.lifetime, lock_guard_exclusive.construct,
        lock_guard_exclusive.ctor_try, lock_guard_exclusive.dtor, Mutex.tryLockExclusive,
        Mutex.unlockExclusive, hans]

theorem shared_lifetime_calls (mode : LockMode) (m : Mutex) :
    (lock_guard_shared.lifetime mode m).2.calls = m.calls ++
      (match mode with
        | .blocking => [MutexCall.lockShared, MutexCall.unlockShared]
        | .adopt_lock => [MutexCall.unlockShared]
        | .try_to_lock =>
          if m.tryShared m.calls
          then [MutexCall.tryLockShared, MutexCall.unlockShared]
          else [MutexCall.tryLockShared]) := by
  cases mode
  · simp [lock_guard_shared.lifetime, lock_guard_shared.construct,
      lock_guard_shared.ctor, lock_guard_shared.dtor, Mutex.lockShared,
      Mutex.unlockShared]
  · simp [lock_guard_shared.lifetime, lock_guard_shared.construct,
      lock_guard_shared.ctor_adopt, lock_guard_shared.dtor, Mutex.unlockShared]
  · cases hans : m.tryShared m.calls <;>
      simp [lock_guard_shared.lifetime, lock_guard_shared.construct,
        lock_guard_shared.ctor_try, lock_guard_shared.dtor, Mutex.tryLockShared,
        Mutex.unlockShared, hans]

/-- C19: the shared guard is the exclusive guard with the mutex operations
renamed.  For every construction mode and every answer of the non-blocking
acquisition, given alike to both guards, there is a trace of exclusive
operations such that the exclusive guard appends it to the log over its life,
the shared guard appends its renaming, which holds no exclusive operation, and
both guards have the same truthiness. -/
theorem shared_guard_renames_exclusive (mode : LockMode) (me ms : Mutex)
    (hans : ms.tryShared ms.calls = me.tryExclusive me.calls) :
    ∃ trace : List MutexCall,
      (lock_guard_exclusive.lifetime mode me).2.calls = me.calls ++ trace ∧
      (lock_guard_shared.lifetime mode ms).2.calls = ms.calls ++ trace.map toShared ∧
      (lock_guard_shared.lifetime mode ms).1 = (lock_guard_exclusive.lifetime mode me).1 ∧
      (∀ c ∈ trace, c.isExclusive = true) ∧
      (∀ c ∈ trace.map toShared, c.isExclusive = false) := by
  have he := exclusive_lifetime_calls mode me
  have hs := shared_lifetime_calls mode ms
  cases mode
  · exact ⟨_, he, hs, rfl, by simp [MutexCall.isExclusive],
      by simp [toShared, MutexCall.isExclusive]⟩
  · exact ⟨_, he, hs, rfl, by simp [MutexCall.isExclusive],
      by simp [toShared, MutexCall.isExclusive]⟩
  · rw [hans] at hs
    refine ⟨_, he, ?_, hans, ?_, ?_⟩
    · rw [hs]
      cases me.tryExclusive me.calls <;> simp [toShared]
    · cases me.tryExclusive me.calls <;> simp [MutexCall.isExclusive]
    · cases me.tryExclusive me.calls <;> simp [toShared, MutexCall.isExclusive]

/-- C19, evaluated: with a failing non-blocking acquisition the exclusive guard
calls `tryLockExclusive` only, the shared guard `tryLockShared` only. -/
theorem shared_guard_renames_exclusive_witness :
    (lock_guard_exclusive.lifetime LockMode.try_to_lock (fakeMutex false)).2.calls =
        [MutexCall.tryLockExclusive] ∧
      (lock_guard_shared.lifetime LockMode.try_to_lock (fakeMutex false)).2.calls =
        [MutexCall.tryLockShared] ∧
      ∃ trace : List MutexCall,
        (lock_guard_exclusive.lifetime LockMode.try_to_lock (fakeMutex false)).2.calls =
          (fakeMutex false).calls ++ trace ∧
        (lock_guard_shared.lifetime LockMode.try_to_lock (fakeMutex false)).2.calls =
          (fakeMutex false).calls ++ trace.map toShared ∧
        (lock_guard_shared.lifetime LockMode.try_to_lock (fakeMutex false)).1 =
          (lock_guard_exclusive.lifetime LockMode.try_to_lock (fakeMutex false)).1 ∧
        (∀ c ∈ trace, c.isExclusive = true) ∧
        (∀ c ∈ trace.map toShared, c.isExclusive = false) :=
  ⟨rfl, rfl,
    shared_guard_renames_exclusive LockMode.try_to_lock (fakeMutex false) (fakeMutex false) rfl⟩

/-! ## Claims on the element stride and on the rounding -/

namespace aligned_allocator

/-- C17, evaluated where it fails: `aligned_allocator<char, 16>` passes the
construction-time check with `sizeof(char) = 1 < 16 = maxAlignment()`;
`allocate(2)` returns `8208`, and the element of index `1`, at
`8208 + 1 * sizeof(char)`, is not on a 16-byte boundary. -/
theorem second_element_not_aligned :
    static_assert_ok win32 T_char 16 = true ∧
      T_char.sizeof < maxAlignment T_char 16 ∧
      (allocate win32 fakeOs T_char 16 2 World.fresh).1 = .ok 8208 ∧
      (8208 + 1 * T_char.sizeof) % maxAlignment T_char 16 = 1 :=
  ⟨by rfl, by decide, by rfl, by rfl⟩

/-- C18: for a power-of-two `M`, slot size `s = sizeof(pointer)` and a raw
address `r` with `r + M - 1 + s` not wrapping, the masked value
`(r + M - 1 + s) & ~(M - 1)` is `M * ((r + M - 1 + s) / M)`, a multiple of `M`
that is at least `r + s` and at most every multiple of `M` that is at least
`r + s`; hence the padding `q - r` lies between `s` and `s + M - 1`. -/
theorem alignedAddress_rounds_down (abi : Abi) (T : TypeInfo) (Alignment r : Nat)
    (hT : T.alignof < abi.modulus) (hA : Alignment < abi.modulus)
    (hpow : ∃ k, maxAlignment T Alignment = 2 ^ k)
    (hnowrap : r + maxAlignment T Alignment - 1 + abi.sizeofPointer < abi.modulus) :
    alignedAddress abi T Alignment r =
        maxAlignment T Alignment *
          ((r + maxAlignment T Alignment - 1 + abi.sizeofPointer) / maxAlignment T Alignment) ∧
      alignedAddress abi T Alignment r % maxAlignment T Alignment = 0 ∧
      r + abi.sizeofPointer ≤ alignedAddress abi T Alignment r ∧
      (∀ m, m % maxAlignment T Alignment = 0 → r + abi.sizeofPointer ≤ m →
        alignedAddress abi T Alignment r ≤ m) ∧
      abi.sizeofPointer ≤ alignedAddress abi T Alignment r - r ∧
      alignedAddress abi T Alignment r - r ≤ abi.sizeofPointer + maxAlignment T Alignment - 1 := by
  obtain ⟨k, hk⟩ := hpow
  have hlt := maxAlignment_lt abi T Alignment hT hA
  have hq := alignedAddress_eq abi T Alignment r k hk hlt
  rw [hk] at hnowrap ⊢
  have hpos := Nat.two_pow_pos k
  have e : r + (2 ^ k - 1) + abi.sizeofPointer = r + 2 ^ k - 1 + abi.sizeofPointer := by omega
  rw [e, Nat.mod_eq_of_lt hnowrap] at hq
  rw [hq]
  have hdm := Nat.div_add_mod (r + 2 ^ k - 1 + abi.sizeofPointer) (2 ^ k)
  have hj := Nat.mod_lt (r + 2 ^ k - 1 + abi.sizeofPointer) hpos
  refine ⟨rfl, Nat.mul_mod_right _ _, by omega, ?_, by omega, by omega⟩
  intro m hm hle
  obtain ⟨c, hc⟩ := Nat.dvd_of_mod_eq_zero hm
  rw [hc]
  apply Nat.mul_le_mul_left
  have hlt2 : r + 2 ^ k - 1 + abi.sizeofPointer < 2 ^ k * (c + 1) := by
    rw [Nat.mul_succ, ← hc]
    omega
  have := (Nat.div_lt_iff_lt_mul hpos).2 (by rw [Nat.mul_comm] at hlt2; exact hlt2)
  omega

/-- C18, evaluated on the 32-bit target for `M = 16`, `s = 4`, `r = 8195`:
the masked value is `8208 = 16 * (8214 / 16)`, with padding `13`. -/
theorem alignedAddress_rounds_down_witness :
    alignedAddress win32 T_int 16 8195 = 8208 ∧
      alignedAddress win32 T_int 16 8195 =
        maxAlignment T_int 16 *
          ((8195 + maxAlignment T_int 16 - 1 + win32.sizeofPointer) / maxAlignment T_int 16) ∧
      win32.sizeofPointer ≤ alignedAddress win32 T_int 16 8195 - 8195 :=
  have key := alignedAddress_rounds_down win32 T_int 16 8195 (by decide) (by decide)
    ⟨4, by decide⟩ (by decide)
  ⟨by rfl, key.1, key.2.2.2.2.1⟩

end aligned_allocator

end stladd
